import Mathlib

/-!
Verification of the SlideRShow builder's Timeline Directive Compiler
(`build_html.py`) and Media Conversion Cache (`convert.py`).

Shallow embedding conventions:
* directives and captured regex groups are `List Char` (Python `str`);
* Python floats are modelled as exact decimal numbers (`Dec`, a
  mantissa/exponent pair) — the values that arise here come from decimal
  literals combined with `*60` and `+`, which are exact in decimals;
* fallible code (the `ValueError` raises of `parse_commands` and the
  `float()` conversions inside `tim`) returns `Except Err`;
* the regex matchers of `parse_commands` are embedded as explicit
  backtracking candidate enumerations in Python's exploration order
  (greedy `\d*` longest-first, optional groups presence-first, lazy
  `\d+?` shortest-first), so group captures are faithful.
-/

set_option maxHeartbeats 1000000
set_option maxRecDepth 8000

/-- ASCII digit test, `\d` of the Python regexes (re module, ASCII input). -/
def isDigitC (c : Char) : Bool := '0' ≤ c && c ≤ '9'

/-- ASCII whitespace test, `\s` of the Python regexes and `str.strip`
(unicode spaces are out of scope of the inputs modelled here). -/
def isPySpace (c : Char) : Bool :=
  c = ' ' || c = '\t' || c = '\n' || c = '\r' || c = '\x0b' || c = '\x0c'

/-- Python `sep in s` for a one-character separator: character membership. -/
def hasChar (c : Char) : List Char → Bool
  | [] => false
  | a :: r => if a = c then true else hasChar c r

/-- Python `s.split(sep)` for a one-character separator: always returns at
least one (possibly empty) part; `"".split(":") == [""]`. -/
def pySplit (sep : Char) : List Char → List (List Char)
  | [] => [[]]
  | c :: cs =>
    match pySplit sep cs with
    | [] => [[c]]
    | h :: t => if c = sep then [] :: h :: t else (c :: h) :: t

/-- Python `s.strip()` (ASCII whitespace). -/
def pyStrip (s : List Char) : List Char :=
  ((s.dropWhile isPySpace).reverse.dropWhile isPySpace).reverse

/-- Longest digit run at the head of the list and the remainder. -/
def takeDigits : List Char → List Char × List Char
  | [] => ([], [])
  | c :: cs =>
    if isDigitC c then
      let pr := takeDigits cs
      (c :: pr.1, pr.2)
    else ([], c :: cs)

/-- Value of a digit string (used only by the `float()` model). -/
def digitsToNat : List Char → Nat
  | [] => 0
  | c :: cs => (c.toNat - 48) * 10 ^ cs.length + digitsToNat cs

/-- An exact decimal number `mant / 10 ^ exp`, the model of the Python
floats produced by `float()` on decimal literals and by `tim`. -/
structure Dec where
  mant : Int
  exp : Nat
deriving DecidableEq

/-- Rational value of a decimal. -/
def Dec.toRat (d : Dec) : ℚ := (d.mant : ℚ) / (10 : ℚ) ^ d.exp

/-- Exact decimal addition (Python float `+` on the decimals reached here). -/
def decAdd (a b : Dec) : Dec :=
  ⟨a.mant * (10 : Int) ^ b.exp + b.mant * (10 : Int) ^ a.exp, a.exp + b.exp⟩

/-- Exact decimal multiplication (used for `minutes * 60`). -/
def decMul (a b : Dec) : Dec := ⟨a.mant * b.mant, a.exp + b.exp⟩

/-- The constant 60 of `tim`. -/
def sixty : Dec := ⟨60, 0⟩

theorem decAdd_toRat (a b : Dec) : (decAdd a b).toRat = a.toRat + b.toRat := by
  have ha : ((10 : ℚ)) ^ a.exp ≠ 0 := pow_ne_zero _ (by norm_num)
  have hb : ((10 : ℚ)) ^ b.exp ≠ 0 := pow_ne_zero _ (by norm_num)
  unfold decAdd Dec.toRat
  rw [pow_add, div_add_div _ _ ha hb]
  push_cast
  ring

theorem decMul_toRat (a b : Dec) : (decMul a b).toRat = a.toRat * b.toRat := by
  unfold decMul Dec.toRat
  rw [pow_add, div_mul_div_comm]
  push_cast
  ring

/-- Strip trailing mantissa zeros against the exponent (Python float repr
shows the shortest decimal form). -/
def decNormalizeGo (m : Int) : Nat → Dec
  | 0 => ⟨m, 0⟩
  | e + 1 => if m % 10 = 0 then decNormalizeGo (m / 10) e else ⟨m, e + 1⟩

def decNormalize (d : Dec) : Dec := decNormalizeGo d.mant d.exp

/-- Decimal digits of a natural number, most significant first. -/
def natDigitsGo : Nat → Nat → List Char
  | 0, _ => []
  | fuel + 1, n =>
    if n < 10 then [Char.ofNat (48 + n)]
    else natDigitsGo fuel (n / 10) ++ [Char.ofNat (48 + n % 10)]

def natDigits (n : Nat) : List Char := natDigitsGo (n + 1) n

/-- Text of a Python float in an f-string (`repr`): the shortest decimal
form, always keeping at least one digit after the point (`92.2`, `0.0`). -/
def renderFloatL (d : Dec) : List Char :=
  let d' := decNormalize d
  let sign : List Char := if d'.mant < 0 then ['-'] else []
  let ds := natDigits d'.mant.natAbs
  if d'.exp = 0 then sign ++ ds ++ ['.', '0']
  else
    let ds' := if ds.length ≤ d'.exp then List.replicate (d'.exp + 1 - ds.length) '0' ++ ds else ds
    sign ++ ds'.take (ds'.length - d'.exp) ++ ['.'] ++ ds'.drop (ds'.length - d'.exp)

/-- A time value: `tim` returns the input text unchanged when it has no
colon (a Python `str`), and a float (here: exact decimal) otherwise. -/
inductive TVal where
  | str (s : List Char)
  | num (d : Dec)
deriving DecidableEq

/-- Text of a `TVal` in an f-string: strings verbatim, floats via repr. -/
def tvalText : TVal → List Char
  | .str s => s
  | .num d => renderFloatL d

/-- Python truthiness of a time value: the empty string and the float 0.0
are falsy. -/
def tvTruthy : TVal → Bool
  | .str s => !s.isEmpty
  | .num d => d.mant != 0

/-- Python truthiness of the `moment` variable (`None` is falsy). -/
def tvOptTruthy : Option TVal → Bool
  | none => false
  | some t => tvTruthy t

/-- Errors of the compiler: the three `ValueError` raises of
`parse_commands`, plus the `float()` conversion failure and the tuple
unpacking failure that `tim` can raise. -/
inductive Err where
  | noAction (cmd : List Char) (cmds : List (List Char))
  | momentConflict (cmd : List Char) (cmds : List (List Char))
  | unknown (cmd : List Char) (cmds : List (List Char))
  | valueError (part : List Char)
  | unpackError (parts : List (List Char))
deriving DecidableEq

/-- Python `float()` on the strings reached here: optional sign, then
`digits`, `digits.digits?` or `.digits`, with surrounding whitespace
allowed (exponents, `inf`/`nan` and `_` separators never occur in the
modelled inputs and are omitted). -/
def parseFloat (s0 : List Char) : Option Dec :=
  let s := pyStrip s0
  let sgn : Int × List Char :=
    match s with
    | '-' :: r => (-1, r)
    | '+' :: r => (1, r)
    | _ => (1, s)
  let ip := takeDigits sgn.2
  match ip.2 with
  | [] => if ip.1.isEmpty then none else some ⟨sgn.1 * digitsToNat ip.1, 0⟩
  | '.' :: r2 =>
    let fp := takeDigits r2
    if !fp.2.isEmpty then none
    else if ip.1.isEmpty && fp.1.isEmpty then none
    else some ⟨sgn.1 * (digitsToNat ip.1 * 10 ^ fp.1.length + digitsToNat fp.1), fp.1.length⟩
  | _ => none

/-- `tim` of build_html.py: `1:32.2` becomes the float 92.2, a colon-free
value is returned unchanged.  `v.split(":")` with two parts feeds
`map(float, …)`; a failing `float()` or a part count other than two raises
(the exact interleaving of the unpack and conversion errors for three or
more parts is collapsed into one error case, unreached by valid input). -/
def tim (v : List Char) : Except Err TVal :=
  if hasChar ':' v then
    match pySplit ':' v with
    | a :: b :: rest =>
      match parseFloat a with
      | none => .error (.valueError a)
      | some ma =>
        match parseFloat b with
        | none => .error (.valueError b)
        | some sb =>
          if rest.isEmpty then .ok (.num (decAdd (decMul ma sixty) sb))
          else .error (.unpackError (a :: b :: rest))
    | parts => .error (.unpackError parts)
  else .ok (.str v)

/-!
The regex `TNUM = (\d*(?::\d+)?\.?\d+?)` of build_html.py, embedded as an
enumeration of all ways the four sub-patterns can consume a prefix of the
input, listed in the exploration order of Python's backtracking engine:
greedy `\d*` longest first, the optional `(?::\d+)?` present first (its
`\d+` longest first), optional `\.?` present first, lazy `\d+?` shortest
first.  A use site picks the first candidate whose continuation matches,
which is exactly the group the engine captures.
-/

/-- Candidates of greedy `\d*`: digit prefixes, longest first. -/
def starDigitOpts (s : List Char) : List (List Char × List Char) :=
  let pr := takeDigits s
  (List.range (pr.1.length + 1)).reverse.map
    (fun i => (pr.1.take i, pr.1.drop i ++ pr.2))

/-- Candidates of `(?::\d+)?`: colon plus a nonempty digit run (longest
first), then absence. -/
def colonOpts (s : List Char) : List (List Char × List Char) :=
  match s with
  | c :: t =>
    if c = ':' then
      let pr := takeDigits t
      ((List.range pr.1.length).reverse.map
        (fun i => (':' :: pr.1.take (i + 1), pr.1.drop (i + 1) ++ pr.2))) ++ [([], s)]
    else [([], s)]
  | [] => [([], s)]

/-- Candidates of `\.?`: the dot consumed first, then absence. -/
def dotOpts (s : List Char) : List (List Char × List Char) :=
  match s with
  | c :: t => if c = '.' then [(['.'], t), ([], s)] else [([], s)]
  | [] => [([], s)]

/-- Candidates of lazy `\d+?`: nonempty digit runs, shortest first. -/
def plusLazyOpts (s : List Char) : List (List Char × List Char) :=
  let pr := takeDigits s
  (List.range pr.1.length).map
    (fun i => (pr.1.take (i + 1), pr.1.drop (i + 1) ++ pr.2))

/-- All `(group, rest)` matches of `TNUM` at the head of the input, in
backtracking order. -/
def tnumCandidates (s : List Char) : List (List Char × List Char) :=
  (starDigitOpts s).flatMap (fun a =>
    (colonOpts a.2).flatMap (fun c =>
      (dotOpts c.2).flatMap (fun p =>
        (plusLazyOpts p.2).map (fun e => (a.1 ++ c.1 ++ p.1 ++ e.1, e.2)))))

/-- `match(TNUM + "$", command)`: some candidate consumes the whole
directive (rule 1, standalone number). -/
def isTNumFull (s : List Char) : Bool :=
  (tnumCandidates s).any (fun pr => pr.2.isEmpty)

/-- Candidates of `\s?`: the whitespace character consumed first. -/
def wsOpts (r : List Char) : List (List Char) :=
  match r with
  | c :: r' => if isPySpace c then [r', r] else [r]
  | [] => [[]]

/-- `match("→\s?" + TNUM + "$", command)` and its group 1 (rule 2, bare
arrow-goto); with the `$` anchor the group is the whole remainder. -/
def arrowTarget (cs : List Char) : Option (List Char) :=
  match cs with
  | c :: r =>
    if c = '→' then
      (wsOpts r).findSome? (fun r2 => if isTNumFull r2 then some r2 else none)
    else none
  | [] => none

/-- The `\s?→\s?` middle of the combined rule, returning the possible
continuation points after the arrow in backtracking order. -/
def afterArrow (r : List Char) : List (List Char) :=
  (wsOpts r).flatMap (fun r1 =>
    match r1 with
    | c :: t => if c = '→' then wsOpts t else []
    | [] => [])

/-- `match(TNUM + "\s?→\s?" + TNUM, command)` (rule 3, combined
number-to-number, unanchored): groups 1 and 2.  Group 1 is the first
candidate whose continuation matches; group 2, with nothing after it in
the pattern, is the first candidate of the second `TNUM`. -/
def combCapture (cs : List Char) : Option (List Char × List Char) :=
  (tnumCandidates cs).findSome? (fun pr =>
    (afterArrow pr.2).findSome? (fun r2 =>
      match (tnumCandidates r2).head? with
      | some q => some (pr.1, q.1)
      | none => none))

/-- Group of `NUM = (\d*\.?\d+?)` unanchored and followed only by
patterns that can match the empty string (`(M|U)?` or the pattern end).
Backtracking then yields: all leading digits, plus `.` and one further
digit when a dot directly followed by a digit comes next. -/
def numCapture (s : List Char) : Option (List Char × List Char) :=
  let pr := takeDigits s
  match pr.2 with
  | c1 :: c2 :: r' =>
    if c1 = '.' && isDigitC c2 then some (pr.1 ++ [c1, c2], r')
    else if pr.1.isEmpty then none
    else some (pr.1, pr.2)
  | _ => if pr.1.isEmpty then none else some (pr.1, pr.2)

/-- Action tokens (the strings appended to the `tokens` accumulator).
Numeric payloads keep the exact text the source code interpolates. -/
inductive Token where
  | goto (t : TVal)
  | rate (s : List Char)
  | mute
  | unmute
  | pause
  | point (s : List Char)
deriving DecidableEq

/-- The optional `(M|U)?` suffix of the `R`/`F` shorthands, mapped through
`clist` (`M` is mute, `U` is unmute); any other following text is ignored
by the unanchored match. -/
def sfxToks (r : List Char) : List Token :=
  match r with
  | c :: _ => if c = 'M' then [.mute] else if c = 'U' then [.unmute] else []
  | [] => []

/-- Rule `F<NUM>(M|U)?`: `rate:1.` followed by the captured number. -/
def fRule (cs : List Char) : Option (List Token) :=
  match cs with
  | c :: r =>
    if c = 'F' then (numCapture r).map (fun pr => Token.rate ('1' :: '.' :: pr.1) :: sfxToks pr.2)
    else none
  | [] => none

/-- Rule `R<NUM>(M|U)?`: `rate:` followed by the captured number. -/
def rRule (cs : List Char) : Option (List Token) :=
  match cs with
  | c :: r =>
    if c = 'R' then (numCapture r).map (fun pr => Token.rate pr.1 :: sfxToks pr.2)
    else none
  | [] => none

/-- Rule `rate\s?<NUM>`: the captured number. -/
def rateKw (cs : List Char) : Option (List Char) :=
  if cs.take 4 = ['r', 'a', 't', 'e'] then
    (wsOpts (cs.drop 4)).findSome? (fun r => (numCapture r).map Prod.fst)
  else none

/-- The `clist` literal-keyword dictionary. -/
def clistLookup (cmd : List Char) : Option Token :=
  if cmd = ['m', 'u', 't', 'e'] then some .mute
  else if cmd = ['u', 'n', 'm', 'u', 't', 'e'] then some .unmute
  else if cmd = ['M'] then some .mute
  else if cmd = ['U'] then some .unmute
  else if cmd = ['p', 'a', 'u', 's', 'e'] then some .pause
  else none

/-- Text of a token as interpolated into the yielded event strings. -/
def tokenText : Token → List Char
  | .goto t => 'g' :: 'o' :: 't' :: 'o' :: ':' :: tvalText t
  | .rate s => 'r' :: 'a' :: 't' :: 'e' :: ':' :: s
  | .mute => ['m', 'u', 't', 'e']
  | .unmute => ['u', 'n', 'm', 'u', 't', 'e']
  | .pause => ['p', 'a', 'u', 's', 'e']
  | .point s => s

/-- `output_tokens` of build_html.py: `[<moment>, "<t1>","<t2>"]` — one
space after the moment's comma, none between quoted tokens.  The directly
yielded event strings of rules 1 and 3 have the same shape. -/
def output_tokens (moment : TVal) (tokens : List Token) : String :=
  String.mk ('[' :: tvalText moment) ++ ", " ++
    String.intercalate "," (tokens.map (fun t => String.mk ('"' :: tokenText t ++ ['"']))) ++ "]"

/-- The compiler's mutable state: the open `moment` and the `tokens`
accumulator. -/
structure PState where
  moment : Option TVal
  tokens : List Token
deriving DecidableEq

/-- `moment or "0"` / `if not moment: moment = "0"`: the moment used when
flushing, the string `"0"` whenever `moment` is falsy. -/
def flushMoment (st : PState) : TVal :=
  match st.moment with
  | some m => if tvTruthy m then m else .str ['0']
  | none => .str ['0']

/-- `match("P", command)` (rule `P` as play): `re.match` only anchors at
the start, so any directive beginning with `P` matches. -/
def headIsP : List Char → Bool
  | c :: _ => if c = 'P' then true else false
  | [] => false

/-- One iteration of the directive loop of `parse_commands`
(lines 128-170), trying the classification rules in source order.
Returns the updated state and the event strings yielded. -/
def procCmd (all : List (List Char)) (isLast : Bool) (st : PState) (cmd : List Char) :
    Except Err (PState × List String) :=
  if isTNumFull cmd then
    if tvOptTruthy st.moment || !st.tokens.isEmpty then
      if st.tokens.isEmpty then .error (.noAction cmd all)
      else
        match tim cmd with
        | .error e => .error e
        | .ok t =>
          .ok (⟨some t, []⟩,
            output_tokens (flushMoment st) st.tokens ::
              (if isLast then [output_tokens t [.pause]] else []))
    else
      match tim cmd with
      | .error e => .error e
      | .ok t => .ok (⟨some t, []⟩, if isLast then [output_tokens t [.pause]] else [])
  else
    match arrowTarget cmd with
    | some g =>
      match tim g with
      | .error e => .error e
      | .ok t => .ok ({ st with tokens := st.tokens ++ [.goto t] }, [])
    | none =>
      match combCapture cmd with
      | some pr =>
        if tvOptTruthy st.moment then .error (.momentConflict cmd all)
        else
          match tim pr.1 with
          | .error e => .error e
          | .ok t1 =>
            match tim pr.2 with
            | .error e => .error e
            | .ok t2 => .ok (st, [output_tokens t1 [.goto t2]])
      | none =>
        match fRule cmd with
        | some ts => .ok ({ st with tokens := st.tokens ++ ts }, [])
        | none =>
          match rRule cmd with
          | some ts => .ok ({ st with tokens := st.tokens ++ ts }, [])
          | none =>
            match rateKw cmd with
            | some g => .ok ({ st with tokens := st.tokens ++ [.rate g] }, [])
            | none =>
              match clistLookup cmd with
              | some tk => .ok ({ st with tokens := st.tokens ++ [tk] }, [])
              | none =>
                if cmd.take 5 = ['p', 'o', 'i', 'n', 't'] then
                  .ok ({ st with tokens := st.tokens ++ [.point cmd] }, [])
                else if headIsP cmd then
                  .ok ({ st with tokens := st.tokens ++ [.rate ['1'], .unmute] }, [])
                else if cmd.take 4 = ['T', 'O', 'D', 'O'] then .ok (st, [])
                else .error (.unknown cmd all)

/-- The directive loop: `isLast` is `i == len(commands) - 1`, which on the
actual iteration is exactly "no directives remain". -/
def runCmds (all : List (List Char)) : PState → List (List Char) →
    Except Err (PState × List String)
  | st, [] => .ok (st, [])
  | st, c :: rest =>
    match procCmd all rest.isEmpty st c with
    | .error e => .error e
    | .ok pr =>
      match runCmds all pr.1 rest with
      | .error e => .error e
      | .ok pr2 => .ok (pr2.1, pr.2 ++ pr2.2)

/-- Concatenation-map used by the two list comprehensions. -/
def catMap (f : α → List β) : List α → List β
  | [] => []
  | a :: l => f a ++ catMap f l

/-- Pipe stage (line 115): each cell (`None` read as `""`) split on `|`,
empty fragments dropped. -/
def stagePipe (cs : List (Option String)) : List (List Char) :=
  catMap (fun c => (pySplit '|' ((c.getD "").data)).filter (fun p => !p.isEmpty)) cs

/-- Comma stage (lines 121-126): a fragment containing `[` is kept whole,
any other is split on commas; every piece is then stripped.  (The
`if subcommand is not None` filter is vacuous at this point and the
stripping happens in the same comprehension.) -/
def stageComma (l : List (List Char)) : List (List Char) :=
  catMap (fun sub => if hasChar '[' sub then [sub] else pySplit ',' sub) l

/-- The directive splitter (lines 109-126): the synthetic `"0"` and
`"→" + tim(start)` inserts for a truthy `start` other than `"0"`,
followed by the pipe and comma stages. -/
def splitDirectives (start : Option String) (commands0 : List (Option String)) :
    Except Err (List (List Char)) :=
  let inserted : Except Err (List (Option String)) :=
    match start with
    | some s =>
      if s.data.isEmpty then .ok commands0
      else if s = "0" then .ok commands0
      else
        match tim s.data with
        | .error e => .error e
        | .ok t => .ok (some "0" :: some (String.mk ('→' :: tvalText t)) :: commands0)
    | none => .ok commands0
  match inserted with
  | .error e => .error e
  | .ok cs => .ok ((stageComma (stagePipe cs)).map pyStrip)

/-- Final flush (lines 171-172): leftover tokens become one last event
with `moment or "0"`. -/
def finalFlush (st : PState) : List String :=
  if st.tokens.isEmpty then [] else [output_tokens (flushMoment st) st.tokens]

/-- `parse_commands` of build_html.py, fully consumed (the caller joins
the generator immediately, so an exception discards earlier yields). -/
def parse_commands (start : Option String) (commands0 : List (Option String)) :
    Except Err (List String) :=
  match splitDirectives start commands0 with
  | .error e => .error e
  | .ok cmds =>
    match runCmds cmds ⟨none, []⟩ cmds with
    | .error e => .error e
    | .ok pr => .ok (pr.2 ++ finalFlush pr.1)

/-- The caller's `commands` list object after `parse_commands` has been
consumed: `insert(0, "0")` happens before `tim(start)` is evaluated for
`insert(1, …)`, so when `tim` raises only `"0"` has been inserted;
the later reassignment of the local `commands` never touches the
caller's list. -/
def callerCommandsAfter (start : Option String) (commands0 : List (Option String)) :
    List (Option String) :=
  match start with
  | some s =>
    if s.data.isEmpty then commands0
    else if s = "0" then commands0
    else
      match tim s.data with
      | .ok t => some "0" :: some (String.mk ('→' :: tvalText t)) :: commands0
      | .error _ => some "0" :: commands0
  | none => commands0

/-!
Media Conversion Cache (`convert.py`).  The filesystem is a list of
existing paths; paths are plain strings.  `file_meta_key`, `heic_to_jpg`,
`ffmpeg_video` and `is_hevc` live in `convert_tools.py`, which is not part
of the sources here — see the doc comments below for their spec models.
-/

/-- Membership of a path in the modelled filesystem (`Path.exists`). -/
def memS (p : String) : List String → Bool
  | [] => false
  | q :: fs => if q = p then true else memS p fs

/-- `Path.name`: the final path component. -/
def lastPart : List (List Char) → List Char
  | [] => []
  | [x] => x
  | _ :: xs => lastPart xs

def pathName (p : String) : String := String.mk (lastPart (pySplit '/' p.data))

/-- Index of the last `.` of the name, scanning from the end. -/
def lastDotIdx (n : List Char) : Option Nat :=
  (n.reverse.findIdx? (fun c => c = '.')).map (fun j => n.length - 1 - j)

/-- `Path.suffix`: the extension from the last dot of the final component,
empty when the dot is leading, trailing or absent. -/
def pathSuffix (p : String) : String :=
  let n := (pathName p).data
  match lastDotIdx n with
  | some i => if 0 < i && i + 1 < n.length then String.mk (n.drop i) else ""
  | none => ""

/-- ASCII `str.lower()`. -/
def lowerChar (c : Char) : Char :=
  if 'A' ≤ c && c ≤ 'Z' then Char.ofNat (c.toNat + 32) else c

def lowerStr (s : String) : String := String.mk (s.data.map lowerChar)

/-- The `Convert` dataclass flags. -/
structure ConvertCfg where
  enable : Bool
  autogenerate : Bool
  checkMp4ForHevc : Bool
  cacheDir : String
deriving DecidableEq

/-- `Convert.get_cached_path`: `cache_dir / (p.name + "." + key + suffix)`.
`key` is the `file_meta_key` function.  Modelled from the spec: the key is
a deterministic value derived from the source file's identity metadata;
it is passed as a pure function parameter. -/
def getCachedPath (cfg : ConvertCfg) (key : String → String) (p : String) (suffix : String) :
    String :=
  cfg.cacheDir ++ "/" ++ pathName p ++ "." ++ key p ++ suffix

/-- `Convert.get_converted`.  The result is the returned path, the
filesystem afterwards and how many transcodes ran.  Modelled from the
spec: a transcode method performs the format-specific transcoding into the
cached path, i.e. it creates that file. -/
def getConverted (cfg : ConvertCfg) (key : String → String) (fs : List String)
    (path suffix : String) : String × List String × Nat :=
  let cached := getCachedPath cfg key path suffix
  let ex := memS cached fs
  let gen := cfg.autogenerate && !ex
  let fs' := if gen then cached :: fs else fs
  let n : Nat := if gen then 1 else 0
  if !cfg.autogenerate && !ex then (path, fs', n) else (cached, fs', n)

/-- `Convert.run`: dispatch on the lowercased suffix when the cache is
enabled and the source exists.  `hevc` is the `is_hevc` probe, modelled
from the spec as a pure predicate on the (unchanged) source file. -/
def convertRun (cfg : ConvertCfg) (key : String → String) (hevc : String → Bool)
    (fs : List String) (path : String) : String × List String × Nat :=
  if cfg.enable then
    if memS path fs then
      let suff := lowerStr (pathSuffix path)
      if suff = ".heic" then getConverted cfg key fs path ".jpg"
      else if suff = ".hevc" then getConverted cfg key fs path ".mp4"
      else if suff = ".mp4" then
        if cfg.checkMp4ForHevc && hevc path then getConverted cfg key fs path ".mp4"
        else (path, fs, 0)
      else (path, fs, 0)
    else (path, fs, 0)
  else (path, fs, 0)

/-! Helper lemmas about the string utilities. -/

theorem hasChar_append_cons (c : Char) (a b : List Char) :
    hasChar c (a ++ c :: b) = true := by
  induction a with
  | nil => simp [hasChar]
  | cons x xs ih =>
    simp only [List.cons_append, hasChar]
    split <;> simp [ih]

theorem pySplit_ne_nil (sep : Char) (s : List Char) : pySplit sep s ≠ [] := by
  cases s with
  | nil => simp [pySplit]
  | cons c cs =>
    simp only [pySplit]
    split
    · simp
    · split <;> simp

theorem pySplit_noSep (sep : Char) (s : List Char) (h : hasChar sep s = false) :
    pySplit sep s = [s] := by
  induction s with
  | nil => rfl
  | cons c cs ih =>
    simp only [hasChar] at h
    by_cases hc : c = sep
    · rw [if_pos hc] at h
      cases h
    · rw [if_neg hc] at h
      simp only [pySplit, ih h]
      rw [if_neg hc]

theorem pySplit_append (sep : Char) (a b : List Char) (h : hasChar sep a = false) :
    pySplit sep (a ++ sep :: b) = a :: pySplit sep b := by
  induction a with
  | nil =>
    simp only [List.nil_append, pySplit]
    rcases hb : pySplit sep b with _ | ⟨x, xs⟩
    · exact absurd hb (pySplit_ne_nil sep b)
    · simp
  | cons c cs ih =>
    simp only [hasChar] at h
    by_cases hc : c = sep
    · rw [if_pos hc] at h
      cases h
    · rw [if_neg hc] at h
      simp only [List.cons_append, pySplit, List.append_eq, ih h]
      rw [if_neg hc]

theorem sixty_toRat : sixty.toRat = 60 := by
  simp [sixty, Dec.toRat]

/-- C7: the time normalizer returns colon-free inputs unchanged in their
exact textual form, and maps a one-colon string `M:S` (numeric parts) to
the number `M*60+S` (e.g. `1:32.2` to `92.2`). -/
theorem c7_tim_contract :
    (∀ s : List Char, hasChar ':' s = false → tim s = .ok (.str s)) ∧
    (∀ (a b : List Char) (A B : Dec), hasChar ':' a = false → hasChar ':' b = false →
      parseFloat a = some A → parseFloat b = some B →
      tim (a ++ ':' :: b) = .ok (.num (decAdd (decMul A sixty) B)) ∧
      (decAdd (decMul A sixty) B).toRat = A.toRat * 60 + B.toRat) := by
  constructor
  · intro s h
    simp [tim, h]
  · intro a b A B ha hb hA hB
    constructor
    · rw [tim, hasChar_append_cons, pySplit_append _ _ _ ha, pySplit_noSep _ _ hb]
      simp [hA, hB]
    · rw [decAdd_toRat, decMul_toRat, sixty_toRat]

/-- Witness for C7 at `"5"` and `"1:32.2"`: the latter normalizes to the
decimal 92.2 (as a rational, 461/5). -/
theorem c7_tim_contract_witness :
    tim ['5'] = .ok (.str ['5']) ∧
    tim ['1', ':', '3', '2', '.', '2'] =
      .ok (.num (decAdd (decMul ⟨1, 0⟩ sixty) ⟨322, 1⟩)) ∧
    (decAdd (decMul ⟨1, 0⟩ sixty) ⟨322, 1⟩).toRat =
      (⟨1, 0⟩ : Dec).toRat * 60 + (⟨322, 1⟩ : Dec).toRat ∧
    (decAdd (decMul ⟨1, 0⟩ sixty) ⟨322, 1⟩).toRat = 461 / 5 := by
  have h := c7_tim_contract
  have h2 := h.2 ['1'] ['3', '2', '.', '2'] ⟨1, 0⟩ ⟨322, 1⟩
    (by decide) (by decide) (by decide) (by decide)
  exact ⟨h.1 ['5'] (by decide), h2.1, h2.2, by norm_num [decAdd, decMul, sixty, Dec.toRat]⟩

/-- C8: time normalization is idempotent on colon-free inputs — such an
input normalizes to itself as a string, and re-normalizing that rendered
result is a no-op. -/
theorem c8_tim_idempotent :
    ∀ s : List Char, hasChar ':' s = false →
      tim s = .ok (.str s) ∧ tim (tvalText (.str s)) = tim s := by
  intro s h
  exact ⟨by simp [tim, h], rfl⟩

/-- Witness for C8 at `"5.2"`. -/
theorem c8_tim_idempotent_witness :
    tim ['5', '.', '2'] = .ok (.str ['5', '.', '2']) ∧
    tim (tvalText (.str ['5', '.', '2'])) = tim ['5', '.', '2'] :=
  c8_tim_idempotent ['5', '.', '2'] (by decide)

/-- Whether a compilation succeeded. -/
def isOkB : Except Err (List String) → Bool
  | .ok _ => true
  | .error _ => false

/-- Counterexample to C1 as stated: with `["5", "30"]` the trailing
standalone number finds an open accumulator with no tokens and raises the
dangling-moment error instead of flushing it as an event and emitting the
terminal pause. -/
theorem c1_trailing_number_cex :
    parse_commands none [some "5", some "30"] =
      .error (.noAction ['3', '0'] [['5'], ['3', '0']]) ∧
    isOkB (parse_commands none [some "5", some "30"]) = false :=
  ⟨rfl, rfl⟩

/-- Counterexample to C2 as stated: `"48→60.5"` alone compiles to an event
whose moment is the left-hand source time 48, not the right-hand target
60.5 claimed by the spec. -/
theorem c2_combined_goto_cex :
    parse_commands none [some "48→60.5"] = .ok ["[48, \"goto:60.5\"]"] ∧
    "[48, \"goto:60.5\"]" ≠ "[60.5, \"goto:60.5\"]" :=
  ⟨rfl, by decide⟩

/-- Counterexample to C3 as stated: with `["0:00", "M"]` the moment is set
(to the float 0.0) when the loop ends, yet the final event is emitted with
the string `"0"` (`moment or "0"` treats the zero float as unset), not
with the current moment, whose text would be `0.0`. -/
theorem c3_dangling_moment_cex :
    parse_commands none [some "0:00", some "M"] =
      .ok [output_tokens (.str ['0']) [.mute]] ∧
    output_tokens (.str ['0']) [.mute] ≠ output_tokens (.num ⟨0, 0⟩) [.mute] :=
  ⟨rfl, by decide⟩

/-- Counterexample to C4 as stated: the directive `"Pxyz"` is not `P` and
is no recognized command, keyword or number, yet it compiles fine — the
unanchored `match("P", …)` accepts any directive starting with `P`. -/
theorem c4_play_and_unknown_cex :
    parse_commands none [some "Pxyz"] = .ok ["[0, \"rate:1\",\"unmute\"]"] ∧
    isOkB (parse_commands none [some "Pxyz"]) = true :=
  ⟨rfl, rfl⟩

/-- Counterexample to C5 as stated: `"R2.55M"` is `R<number>` suffixed `M`,
but the lazy unanchored capture stops after one fractional digit, so the
code appends only `rate:2.5` and no `mute`. -/
theorem c5_rate_shorthand_cex :
    parse_commands none [some "R2.55M"] = .ok ["[0, \"rate:2.5\"]"] ∧
    ["[0, \"rate:2.5\"]"] ≠ ["[0, \"rate:2.55\",\"mute\"]"] :=
  ⟨rfl, by decide⟩

/-- Counterexample to C6 as stated: the cell `"a,"` splits into `["a", ""]`
— the empty fragment produced by the trailing comma is kept in the output,
so not all empty entries are removed. -/
theorem c6_splitter_cex :
    splitDirectives none [some "a,"] = .ok [['a'], []] ∧
    ([] : List Char) ∈ [['a'], ([] : List Char)] :=
  ⟨rfl, by decide⟩

/-- Counterexample to C10 as stated: with `start = "1:2:3"` (present, not
`"0"`), `tim(start)` raises after `insert(0, "0")` and before
`insert(1, …)`, so the caller's list gains only one synthetic directive,
not two. -/
theorem c10_caller_mutation_cex :
    callerCommandsAfter (some "1:2:3") [] = [some "0"] ∧
    (callerCommandsAfter (some "1:2:3") []).length = 1 :=
  ⟨rfl, rfl⟩

/-- C10 (amended): when `start` is truthy and not `"0"` and its
normalization succeeds, the caller's commands list afterwards has the two
synthetic directives `"0"` and `"→" + tim(start)` inserted at positions 0
and 1; when normalization raises, only `"0"` has been inserted; with no
start the list is untouched. -/
theorem c10_caller_mutation :
    (∀ (s : String) (cmds : List (Option String)) (t : TVal),
      s.data ≠ [] → s ≠ "0" → tim s.data = .ok t →
      callerCommandsAfter (some s) cmds =
        some "0" :: some (String.mk ('→' :: tvalText t)) :: cmds) ∧
    (∀ (s : String) (cmds : List (Option String)) (e : Err),
      s.data ≠ [] → s ≠ "0" → tim s.data = .error e →
      callerCommandsAfter (some s) cmds = some "0" :: cmds) ∧
    (∀ cmds, callerCommandsAfter none cmds = cmds) := by
  refine ⟨?_, ?_, fun cmds => rfl⟩
  · intro s cmds t h1 h2 h3
    simp [callerCommandsAfter, h1, h2, h3]
  · intro s cmds e h1 h2 h3
    simp [callerCommandsAfter, h1, h2, h3]

/-- Witness for C10 with `start = "1:10"`: both synthetic directives are
inserted, the arrow one carrying the normalized text `70.0`. -/
theorem c10_caller_mutation_witness :
    callerCommandsAfter (some "1:10") [some "x"] =
      some "0" :: some (String.mk ('→' :: tvalText (.num ⟨70, 0⟩))) :: [some "x"] :=
  c10_caller_mutation.1 "1:10" [some "x"] (.num ⟨70, 0⟩) (by decide) (by decide) rfl

theorem memS_cons_of (p q : String) (fs : List String) (h : memS p fs = true) :
    memS p (q :: fs) = true := by
  simp only [memS]
  split <;> simp [h]

theorem memS_cons_self (p : String) (fs : List String) : memS p (p :: fs) = true := by
  simp [memS]

theorem getConverted_hit (cfg : ConvertCfg) (key : String → String) (fs : List String)
    (p sfx : String) (h : memS (getCachedPath cfg key p sfx) fs = true) :
    getConverted cfg key fs p sfx = (getCachedPath cfg key p sfx, fs, 0) := by
  simp [getConverted, h]

theorem getConverted_gen (cfg : ConvertCfg) (key : String → String) (fs : List String)
    (p sfx : String) (hag : cfg.autogenerate = true)
    (h : memS (getCachedPath cfg key p sfx) fs = false) :
    getConverted cfg key fs p sfx =
      (getCachedPath cfg key p sfx, getCachedPath cfg key p sfx :: fs, 1) := by
  simp [getConverted, h, hag]

/-- The per-suffix dispatch step of two successive resolutions: if the
resolution of `p` takes a fixed `getConverted` branch whenever `p` exists,
then across two calls at most one transcode runs. -/
theorem convertRun_twice_branch (cfg : ConvertCfg) (key : String → String)
    (hevc : String → Bool) (fs : List String) (p sfx : String)
    (hag : cfg.autogenerate = true) (hmem : memS p fs = true)
    (hsel : ∀ fs' : List String, memS p fs' = true →
      convertRun cfg key hevc fs' p = getConverted cfg key fs' p sfx) :
    (convertRun cfg key hevc fs p).2.2 +
      (convertRun cfg key hevc (convertRun cfg key hevc fs p).2.1 p).2.2 ≤ 1 := by
  have h1 := hsel fs hmem
  rcases hx : memS (getCachedPath cfg key p sfx) fs with _ | _
  · have hg := getConverted_gen cfg key fs p sfx hag hx
    rw [h1, hg]
    have h2 := hsel (getCachedPath cfg key p sfx :: fs) (memS_cons_of _ _ _ hmem)
    rw [show (getCachedPath cfg key p sfx, getCachedPath cfg key p sfx :: fs, 1).2.1 =
      getCachedPath cfg key p sfx :: fs from rfl]
    rw [h2, getConverted_hit _ _ _ _ _ (memS_cons_self _ _)]
    simp
  · have hh := getConverted_hit cfg key fs p sfx hx
    rw [h1, hh]
    rw [show (getCachedPath cfg key p sfx, fs, 0).2.1 = fs from rfl]
    rw [hsel fs hmem, hh]
    simp

/-- C9: the conversion cache resolve (`Convert.run`) returns the input
path unchanged when disabled or when the source does not exist; with
`enable` and `autogenerate` both set, resolving the same source twice
transcodes at most once (the first call creates the cache entry, the
second finds it); and `Convert.get_converted` with `autogenerate` off and
the entry absent returns the original path. -/
theorem c9_convert_cache :
    (∀ (cfg : ConvertCfg) (key : String → String) (hevc : String → Bool)
      (fs : List String) (p : String),
      cfg.enable = false → convertRun cfg key hevc fs p = (p, fs, 0)) ∧
    (∀ (cfg : ConvertCfg) (key : String → String) (hevc : String → Bool)
      (fs : List String) (p : String),
      cfg.enable = true → memS p fs = false → convertRun cfg key hevc fs p = (p, fs, 0)) ∧
    (∀ (cfg : ConvertCfg) (key : String → String) (hevc : String → Bool)
      (fs : List String) (p : String),
      cfg.enable = true → cfg.autogenerate = true →
      (convertRun cfg key hevc fs p).2.2 +
        (convertRun cfg key hevc (convertRun cfg key hevc fs p).2.1 p).2.2 ≤ 1) ∧
    (∀ (cfg : ConvertCfg) (key : String → String) (fs : List String) (p sfx : String),
      cfg.autogenerate = false → memS (getCachedPath cfg key p sfx) fs = false →
      getConverted cfg key fs p sfx = (p, fs, 0)) := by
  refine ⟨?_, ?_, ?_, ?_⟩
  · intro cfg key hevc fs p hen
    simp [convertRun, hen]
  · intro cfg key hevc fs p hen hm
    simp [convertRun, hen, hm]
  · intro cfg key hevc fs p hen hag
    rcases hm : memS p fs with _ | _
    · simp [convertRun, hen, hm]
    · by_cases h1 : lowerStr (pathSuffix p) = ".heic"
      · refine convertRun_twice_branch cfg key hevc fs p ".jpg" hag hm ?_
        intro fs' hm'
        simp [convertRun, hen, hm', h1]
      · by_cases h2 : lowerStr (pathSuffix p) = ".hevc"
        · refine convertRun_twice_branch cfg key hevc fs p ".mp4" hag hm ?_
          intro fs' hm'
          simp [convertRun, hen, hm', h1, h2]
        · by_cases h3 : lowerStr (pathSuffix p) = ".mp4"
          · by_cases h4 : (cfg.checkMp4ForHevc && hevc p) = true
            · refine convertRun_twice_branch cfg key hevc fs p ".mp4" hag hm ?_
              intro fs' hm'
              simp [convertRun, hen, hm', h1, h2, h3, h4]
            · simp [convertRun, hen, hm, h1, h2, h3, h4]
          · simp [convertRun, hen, hm, h1, h2, h3]
  · intro cfg key fs p sfx hag hx
    simp [getConverted, hag, hx]

/-- Witness for C9: a disabled cache returns `a.heic` untouched, and with
the cache enabled the two successive resolutions of `a.heic` transcode at
most once. -/
theorem c9_convert_cache_witness :
    convertRun ⟨false, true, true, "/tmp"⟩ (fun _ => "k") (fun _ => false)
      ["a.heic"] "a.heic" = ("a.heic", ["a.heic"], 0) ∧
    (convertRun ⟨true, true, true, "/tmp"⟩ (fun _ => "k") (fun _ => false)
        ["a.heic"] "a.heic").2.2 +
      (convertRun ⟨true, true, true, "/tmp"⟩ (fun _ => "k") (fun _ => false)
        (convertRun ⟨true, true, true, "/tmp"⟩ (fun _ => "k") (fun _ => false)
          ["a.heic"] "a.heic").2.1 "a.heic").2.2 ≤ 1 :=
  ⟨c9_convert_cache.1 _ _ _ _ _ rfl,
   c9_convert_cache.2.2.1 ⟨true, true, true, "/tmp"⟩ (fun _ => "k") (fun _ => false)
     ["a.heic"] "a.heic" rfl rfl⟩

theorem data_mk (s : List Char) : (String.mk s).data = s := rfl

theorem isEmpty_false_of_ne_nil {α : Type} (l : List α) (h : l ≠ []) :
    l.isEmpty = false := by
  cases l with
  | nil => exact absurd rfl h
  | cons a as => rfl

theorem ne_nil_of_hasChar (c : Char) (s : List Char) (h : hasChar c s = true) :
    s ≠ [] := by
  intro hs
  subst hs
  simp [hasChar] at h

/-- C6 (amended): the splitter prepends `"0"` and `"→"+tim(start)` for a
truthy non-`"0"` start; absent and empty cells vanish; each cell is split
on `|`; a fragment containing `[` stays one (stripped) atomic directive
while any other fragment is comma-split and stripped — but empty strings
arising from the comma split are retained, only empty pipe fragments and
empty cells are removed. -/
theorem c6_splitter :
    (∀ (s : String) (cmds : List (Option String)) (t : TVal),
      s.data ≠ [] → s ≠ "0" → tim s.data = .ok t →
      splitDirectives (some s) cmds =
        splitDirectives none
          (some "0" :: some (String.mk ('→' :: tvalText t)) :: cmds)) ∧
    (∀ cmds, splitDirectives none (none :: cmds) = splitDirectives none cmds) ∧
    (∀ cmds, splitDirectives none (some "" :: cmds) = splitDirectives none cmds) ∧
    (∀ s : List Char, hasChar '|' s = false → hasChar '[' s = true →
      splitDirectives none [some (String.mk s)] = .ok [pyStrip s]) ∧
    (∀ s : List Char, s ≠ [] → hasChar '|' s = false → hasChar '[' s = false →
      splitDirectives none [some (String.mk s)] = .ok ((pySplit ',' s).map pyStrip)) ∧
    (∀ s t : List Char, hasChar '|' s = false → hasChar '|' t = false →
      splitDirectives none [some (String.mk (s ++ '|' :: t))] =
        splitDirectives none [some (String.mk s), some (String.mk t)]) := by
  refine ⟨?_, fun cmds => rfl, fun cmds => rfl, ?_, ?_, ?_⟩
  · intro s cmds t h1 h2 h3
    unfold splitDirectives
    simp [isEmpty_false_of_ne_nil _ h1, h2, h3]
  · intro s hp hb
    have hne : s ≠ [] := ne_nil_of_hasChar '[' s hb
    unfold splitDirectives stagePipe stageComma
    simp only [catMap, Option.getD_some, data_mk, List.append_nil]
    rw [pySplit_noSep _ _ hp]
    simp [catMap, isEmpty_false_of_ne_nil _ hne, hb]
  · intro s hne hp hb
    unfold splitDirectives stagePipe stageComma
    simp only [catMap, Option.getD_some, data_mk, List.append_nil]
    rw [pySplit_noSep _ _ hp]
    simp [catMap, isEmpty_false_of_ne_nil _ hne, hb]
  · intro s t hs ht
    have h1 : pySplit '|' (s ++ '|' :: t) = [s, t] := by
      rw [pySplit_append _ _ _ hs, pySplit_noSep _ _ ht]
    unfold splitDirectives stagePipe
    simp only [catMap, Option.getD_some, data_mk, List.append_nil, h1]
    rw [pySplit_noSep _ _ hs, pySplit_noSep _ _ ht]
    have hft : List.filter (fun p => !p.isEmpty) [s, t] =
        List.filter (fun p => !p.isEmpty) [s] ++ List.filter (fun p => !p.isEmpty) [t] := by
      cases hs' : (!s.isEmpty) <;> cases ht' : (!t.isEmpty) <;>
        simp [List.filter_cons, hs', ht']
    rw [hft]

/-- Witness for C6 at the cell `"a,b"`: comma-split into stripped atoms. -/
theorem c6_splitter_witness :
    splitDirectives none [some (String.mk ['a', ',', 'b'])] =
      .ok ((pySplit ',' ['a', ',', 'b']).map pyStrip) :=
  c6_splitter.2.2.2.2.1 ['a', ',', 'b'] (by decide) (by decide) (by decide)

/-! Helper lemmas about the regex matchers. -/

theorem takeDigits_not (c : Char) (hc : isDigitC c = false) (s : List Char) :
    takeDigits (c :: s) = ([], c :: s) := by
  simp [takeDigits, hc]

theorem tnumCandidates_cons_empty (c : Char) (s : List Char) (hc : isDigitC c = false)
    (h1 : c ≠ ':') (h2 : c ≠ '.') : tnumCandidates (c :: s) = [] := by
  unfold tnumCandidates starDigitOpts colonOpts dotOpts plusLazyOpts
  simp [takeDigits_not c hc, h1, h2]

theorem isTNumFull_cons (c : Char) (s : List Char) (hc : isDigitC c = false)
    (h1 : c ≠ ':') (h2 : c ≠ '.') : isTNumFull (c :: s) = false := by
  simp [isTNumFull, tnumCandidates_cons_empty c s hc h1 h2]

theorem arrowTarget_cons (c : Char) (s : List Char) (h : c ≠ '→') :
    arrowTarget (c :: s) = none := by
  simp [arrowTarget, h]

theorem combCapture_cons_none (c : Char) (s : List Char) (hc : isDigitC c = false)
    (h1 : c ≠ ':') (h2 : c ≠ '.') : combCapture (c :: s) = none := by
  simp [combCapture, tnumCandidates_cons_empty c s hc h1 h2]

theorem fRule_cons (c : Char) (s : List Char) (h : c ≠ 'F') : fRule (c :: s) = none := by
  simp [fRule, h]

theorem rRule_cons (c : Char) (s : List Char) (h : c ≠ 'R') : rRule (c :: s) = none := by
  simp [rRule, h]

theorem rateKw_cons (c : Char) (s : List Char) (h : c ≠ 'r') : rateKw (c :: s) = none := by
  simp [rateKw, List.take_succ_cons, h]

theorem clistLookup_cons (c : Char) (s : List Char) (hm : c ≠ 'm') (hu : c ≠ 'u')
    (hM : c ≠ 'M') (hU : c ≠ 'U') (hp : c ≠ 'p') : clistLookup (c :: s) = none := by
  simp [clistLookup, hm, hu, hM, hU, hp]

theorem take5_cons_ne (c : Char) (s : List Char) (h : c ≠ 'p') :
    (c :: s).take 5 ≠ ['p', 'o', 'i', 'n', 't'] := by
  simp [List.take_succ_cons, h]

theorem take4_cons_ne (c : Char) (s : List Char) (h : c ≠ 'T') :
    (c :: s).take 4 ≠ ['T', 'O', 'D', 'O'] := by
  simp [List.take_succ_cons, h]

theorem tim_ne_noAction (v x : List Char) (y : List (List Char)) :
    tim v ≠ .error (.noAction x y) := by
  unfold tim
  repeat' split
  all_goals simp

theorem tim_ne_conflict (v x : List Char) (y : List (List Char)) :
    tim v ≠ .error (.momentConflict x y) := by
  unfold tim
  repeat' split
  all_goals simp

theorem takeDigits_all (ds : List Char) (hd : ∀ c ∈ ds, isDigitC c = true) (r : List Char)
    (hr : ∀ c rest, r = c :: rest → isDigitC c = false) :
    takeDigits (ds ++ r) = (ds, r) := by
  induction ds with
  | nil =>
    cases r with
    | nil => rfl
    | cons c rest => simp [takeDigits, hr c rest rfl]
  | cons a as ih =>
    have ha : isDigitC a = true := hd a (List.mem_cons_self a as)
    simp [takeDigits, ha, ih (fun c hc => hd c (List.mem_cons_of_mem a hc))]

theorem numCapture_digits (ds : List Char) (hne : ds ≠ []) (hd : ∀ c ∈ ds, isDigitC c = true)
    (r : List Char) (hr1 : ∀ c rest, r = c :: rest → isDigitC c = false)
    (hr2 : ∀ c rest, r = '.' :: c :: rest → isDigitC c = false) :
    numCapture (ds ++ r) = some (ds, r) := by
  unfold numCapture
  rw [takeDigits_all ds hd r hr1]
  rcases r with _ | ⟨c1, _ | ⟨c2, r'⟩⟩
  · simp [isEmpty_false_of_ne_nil _ hne]
  · simp [isEmpty_false_of_ne_nil _ hne]
  · by_cases h1 : c1 = '.'
    · subst h1
      simp [hr2 c2 r' rfl, isEmpty_false_of_ne_nil _ hne]
    · simp [h1, isEmpty_false_of_ne_nil _ hne]

theorem numCapture_dotted (ds : List Char) (hd : ∀ c ∈ ds, isDigitC c = true) (d : Char)
    (hdd : isDigitC d = true) (r : List Char) :
    numCapture (ds ++ '.' :: d :: r) = some (ds ++ ['.', d], r) := by
  unfold numCapture
  rw [takeDigits_all ds hd ('.' :: d :: r)
    (by intro c rest h; injection h with h1 h2; subst h1; decide)]
  simp [hdd]

/-- C1 (amended): a trailing standalone-number directive flushes an open
accumulator as an event when the accumulator holds at least one token (an
open accumulator with no tokens raises the dangling-moment error instead,
and a failing normalization aborts before the terminal event), and then
also emits the terminal `(moment, [pause])` event; in particular
`["15", "rate 2", "30"]` compiles to exactly `[15, ["rate:2"]]` followed
by `[30, ["pause"]]`. -/
theorem c1_trailing_number :
    (∀ (all : List (List Char)) (st : PState) (c : List Char) (t : TVal),
      isTNumFull c = true → st.tokens ≠ [] → tim c = .ok t →
      procCmd all true st c =
        .ok (⟨some t, []⟩,
          [output_tokens (flushMoment st) st.tokens, output_tokens t [.pause]])) ∧
    parse_commands none [some "15", some "rate 2", some "30"] =
      .ok ["[15, \"rate:2\"]", "[30, \"pause\"]"] := by
  constructor
  · intro all st c t h1 h2 h3
    rcases hts : st.tokens with _ | ⟨tk, tks⟩
    · exact absurd hts h2
    · simp [procCmd, h1, hts, h3]
  · rfl

/-- Witness for C1: processing the last directive `30` from the state
`moment = "15", tokens = [rate:2]`. -/
theorem c1_trailing_number_witness :
    procCmd [['3', '0']] true ⟨some (.str ['1', '5']), [.rate ['2']]⟩ ['3', '0'] =
      .ok (⟨some (.str ['3', '0']), []⟩,
        [output_tokens (flushMoment ⟨some (.str ['1', '5']), [.rate ['2']]⟩) [.rate ['2']],
         output_tokens (.str ['3', '0']) [.pause]]) :=
  c1_trailing_number.1 [['3', '0']] ⟨some (.str ['1', '5']), [.rate ['2']]⟩ ['3', '0']
    (.str ['3', '0']) (by decide) (by decide) rfl

/-- C2 (amended): a combined `<time>→<time>` directive fails with the
moment-conflict error if and only if a truthy moment is open (a moment
set to the zero float by a directive like `0:00` counts as unset);
otherwise it emits `(normalized FIRST time, [goto:<normalized second
time>])` — the left-hand source time is the event's moment, not the
right-hand target.  `"48→60.5"` alone compiles to `[48, ["goto:60.5"]]`,
and preceded by a standalone `"48"` it fails with the conflict error. -/
theorem c2_combined_goto :
    (∀ (all : List (List Char)) (isLast : Bool) (st : PState) (c m1 m2 : List Char),
      combCapture c = some (m1, m2) → isTNumFull c = false → arrowTarget c = none →
      tvOptTruthy st.moment = true →
      procCmd all isLast st c = .error (.momentConflict c all)) ∧
    (∀ (all : List (List Char)) (isLast : Bool) (st : PState) (c m1 m2 : List Char)
      (t1 t2 : TVal),
      combCapture c = some (m1, m2) → isTNumFull c = false → arrowTarget c = none →
      tvOptTruthy st.moment = false → tim m1 = .ok t1 → tim m2 = .ok t2 →
      procCmd all isLast st c = .ok (st, [output_tokens t1 [.goto t2]])) ∧
    (∀ (all : List (List Char)) (isLast : Bool) (st : PState) (c : List Char),
      procCmd all isLast st c = .error (.momentConflict c all) →
      tvOptTruthy st.moment = true) ∧
    parse_commands none [some "48→60.5"] = .ok ["[48, \"goto:60.5\"]"] ∧
    parse_commands none [some "48", some "48→60.5"] =
      .error (.momentConflict "48→60.5".data ["48".data, "48→60.5".data]) := by
  refine ⟨?_, ?_, ?_, rfl, rfl⟩
  · intro all isLast st c m1 m2 hC hT hA htr
    simp [procCmd, hC, hT, hA, htr]
  · intro all isLast st c m1 m2 t1 t2 hC hT hA htr h1 h2
    simp [procCmd, hC, hT, hA, htr, h1, h2]
  · intro all isLast st c h
    unfold procCmd at h
    repeat' split at h
    all_goals simp_all [tim_ne_conflict]

/-- Witness for C2: `"48→60.5"` processed with no open moment emits the
event with moment 48. -/
theorem c2_combined_goto_witness :
    procCmd ["48→60.5".data] false ⟨none, []⟩ "48→60.5".data =
      .ok (⟨none, []⟩, [output_tokens (.str ['4', '8']) [.goto (.str "60.5".data)]]) :=
  c2_combined_goto.2.1 ["48→60.5".data] false ⟨none, []⟩ "48→60.5".data
    ['4', '8'] "60.5".data (.str ['4', '8']) (.str "60.5".data)
    (by decide) (by decide) (by decide) rfl rfl rfl

/-- C3 (amended): the dangling-moment error is raised only when a
standalone-number directive flushes an open (truthy-moment) accumulator
whose token list is empty; a moment followed by at least one action
succeeds; leftover tokens after the loop are emitted as a final event
whose moment is the current moment when truthy and the string `"0"` when
the moment is unset or falsy (so a moment set to the zero float `0:00`
also falls back to `"0"`).  `["5", "M"]` alone succeeds with exactly
`[5, ["mute"]]`. -/
theorem c3_dangling_moment :
    (∀ (all : List (List Char)) (isLast : Bool) (st : PState) (c x : List Char)
      (y : List (List Char)),
      procCmd all isLast st c = .error (.noAction x y) →
      isTNumFull c = true ∧ tvOptTruthy st.moment = true ∧ st.tokens = []) ∧
    (∀ st : PState, st.tokens ≠ [] →
      finalFlush st = [output_tokens (flushMoment st) st.tokens]) ∧
    (∀ ts : List Token, flushMoment ⟨none, ts⟩ = .str ['0']) ∧
    parse_commands none [some "5", some "M"] = .ok ["[5, \"mute\"]"] ∧
    parse_commands none [some "M"] = .ok ["[0, \"mute\"]"] := by
  refine ⟨?_, ?_, fun ts => rfl, rfl, rfl⟩
  · intro all isLast st c x y h
    unfold procCmd at h
    repeat' split at h
    all_goals simp_all [tim_ne_noAction]
  · intro st h
    simp [finalFlush, isEmpty_false_of_ne_nil _ h]

/-- Witness for C3: the error inversion applied where `["5", "30"]`
raises, and the final flush of a pending `mute` under moment `"5"`. -/
theorem c3_dangling_moment_witness :
    (isTNumFull ['3', '0'] = true ∧ tvOptTruthy (some (TVal.str ['5'])) = true ∧
      ([] : List Token) = []) ∧
    finalFlush ⟨some (.str ['5']), [.mute]⟩ =
      [output_tokens (flushMoment ⟨some (.str ['5']), [.mute]⟩) [.mute]] :=
  ⟨c3_dangling_moment.1 [] false ⟨some (.str ['5']), []⟩ ['3', '0'] ['3', '0'] [] rfl,
   c3_dangling_moment.2.1 ⟨some (.str ['5']), [.mute]⟩ (by decide)⟩

/-- C4 (amended): the directive `P` exactly appends `rate:1` then
`unmute` — but so does any directive merely starting with `P` that the
earlier rules do not catch, since `re.match("P", …)` only anchors at the
start; a directive matching none of the classification rules (including
that unanchored `P` rule) fails with the unknown-command error naming the
directive and the full directive list. -/
theorem c4_play_and_unknown :
    (∀ (all : List (List Char)) (isLast : Bool) (st : PState),
      procCmd all isLast st ['P'] =
        .ok ({ st with tokens := st.tokens ++ [.rate ['1'], .unmute] }, [])) ∧
    (∀ (all : List (List Char)) (isLast : Bool) (st : PState) (xs : List Char),
      procCmd all isLast st ('P' :: xs) =
        .ok ({ st with tokens := st.tokens ++ [.rate ['1'], .unmute] }, [])) ∧
    (∀ (all : List (List Char)) (isLast : Bool) (st : PState) (cmd : List Char),
      isTNumFull cmd = false → arrowTarget cmd = none → combCapture cmd = none →
      fRule cmd = none → rRule cmd = none → rateKw cmd = none → clistLookup cmd = none →
      cmd.take 5 ≠ ['p', 'o', 'i', 'n', 't'] → headIsP cmd = false →
      cmd.take 4 ≠ ['T', 'O', 'D', 'O'] →
      procCmd all isLast st cmd = .error (.unknown cmd all)) := by
  have hP : ∀ (all : List (List Char)) (isLast : Bool) (st : PState) (xs : List Char),
      procCmd all isLast st ('P' :: xs) =
        .ok ({ st with tokens := st.tokens ++ [.rate ['1'], .unmute] }, []) := by
    intro all isLast st xs
    simp [procCmd, isTNumFull_cons 'P' xs (by decide) (by decide) (by decide),
      arrowTarget_cons 'P' xs (by decide),
      combCapture_cons_none 'P' xs (by decide) (by decide) (by decide),
      fRule_cons 'P' xs (by decide), rRule_cons 'P' xs (by decide),
      rateKw_cons 'P' xs (by decide),
      clistLookup_cons 'P' xs (by decide) (by decide) (by decide) (by decide) (by decide),
      take5_cons_ne 'P' xs (by decide), headIsP]
  refine ⟨fun all isLast st => hP all isLast st [], hP, ?_⟩
  intro all isLast st cmd hT hA hC hF hR hK hL hP5 hHP hT4
  simp [procCmd, hT, hA, hC, hF, hR, hK, hL, hP5, hHP, hT4]

/-- Witness for C4: `P` as a lone directive appends `rate:1, unmute`, and
the unmatched directive `x` raises the unknown-command error. -/
theorem c4_play_and_unknown_witness :
    procCmd [['P']] true ⟨none, []⟩ ['P'] =
      .ok (⟨none, [.rate ['1'], .unmute]⟩, []) ∧
    procCmd [['x']] true ⟨none, []⟩ ['x'] = .error (.unknown ['x'] [['x']]) :=
  ⟨c4_play_and_unknown.1 [['P']] true ⟨none, []⟩,
   c4_play_and_unknown.2.2 [['x']] true ⟨none, []⟩ ['x'] (by decide) (by decide)
     (by decide) (by decide) (by decide) (by decide) (by decide) (by decide)
     (by decide) (by decide)⟩

/-- C5 (amended): the `R`/`F` shorthands work as claimed when the number
is a digit string or has exactly one fractional digit: `R<number>` with an
optional `M`/`U` suffix appends `rate:<number>` then the mute/unmute
token, and `F<digits>` likewise appends `rate:1.<digits>`.  (For numbers
with two or more fractional digits the lazy capture truncates after the
first fractional digit and the suffix is not consumed.)  In particular
`R4M` yields exactly `[rate:4, mute]` and `F2` yields `[rate:1.2]`. -/
theorem c5_rate_shorthand :
    (∀ (all : List (List Char)) (isLast : Bool) (st : PState) (n sfx : List Char)
      (ts : List Token),
      ((n ≠ [] ∧ ∀ c ∈ n, isDigitC c = true) ∨
        (∃ ds d, (∀ c ∈ ds, isDigitC c = true) ∧ isDigitC d = true ∧ n = ds ++ ['.', d])) →
      (sfx = [] ∧ ts = [] ∨ sfx = ['M'] ∧ ts = [.mute] ∨ sfx = ['U'] ∧ ts = [.unmute]) →
      procCmd all isLast st ('R' :: (n ++ sfx)) =
        .ok ({ st with tokens := st.tokens ++ (.rate n :: ts) }, [])) ∧
    (∀ (all : List (List Char)) (isLast : Bool) (st : PState) (ds sfx : List Char)
      (ts : List Token),
      ds ≠ [] → (∀ c ∈ ds, isDigitC c = true) →
      (sfx = [] ∧ ts = [] ∨ sfx = ['M'] ∧ ts = [.mute] ∨ sfx = ['U'] ∧ ts = [.unmute]) →
      procCmd all isLast st ('F' :: (ds ++ sfx)) =
        .ok ({ st with tokens := st.tokens ++ (.rate ('1' :: '.' :: ds) :: ts) }, [])) ∧
    procCmd [] false ⟨none, []⟩ "R4M".data = .ok (⟨none, [.rate ['4'], .mute]⟩, []) ∧
    procCmd [] false ⟨none, []⟩ "F2".data = .ok (⟨none, [.rate ['1', '.', '2']]⟩, []) := by
  refine ⟨?_, ?_, rfl, rfl⟩
  · intro all isLast st n sfx ts hn hs
    have hcap : numCapture (n ++ sfx) = some (n, sfx) := by
      rcases hn with ⟨hne, hd⟩ | ⟨ds, d, hd, hdd, rfl⟩
      · refine numCapture_digits n hne hd sfx ?_ ?_
        · intro c rest h
          rcases hs with ⟨h1, _⟩ | ⟨h1, _⟩ | ⟨h1, _⟩ <;> subst h1 <;> cases h <;> decide
        · intro c rest h
          rcases hs with ⟨h1, _⟩ | ⟨h1, _⟩ | ⟨h1, _⟩ <;> subst h1 <;> cases h
      · rw [List.append_assoc]
        exact numCapture_dotted ds hd d hdd sfx
    have hsfx : sfxToks sfx = ts := by
      rcases hs with ⟨h1, h2⟩ | ⟨h1, h2⟩ | ⟨h1, h2⟩ <;> subst h1 <;> subst h2 <;> rfl
    have hrr : rRule ('R' :: (n ++ sfx)) = some (.rate n :: ts) := by
      simp [rRule, hcap, hsfx]
    simp [procCmd, isTNumFull_cons 'R' _ (by decide) (by decide) (by decide),
      arrowTarget_cons 'R' _ (by decide),
      combCapture_cons_none 'R' _ (by decide) (by decide) (by decide),
      fRule_cons 'R' _ (by decide), hrr]
  · intro all isLast st ds sfx ts hne hd hs
    have hcap : numCapture (ds ++ sfx) = some (ds, sfx) := by
      refine numCapture_digits ds hne hd sfx ?_ ?_
      · intro c rest h
        rcases hs with ⟨h1, _⟩ | ⟨h1, _⟩ | ⟨h1, _⟩ <;> subst h1 <;> cases h <;> decide
      · intro c rest h
        rcases hs with ⟨h1, _⟩ | ⟨h1, _⟩ | ⟨h1, _⟩ <;> subst h1 <;> cases h
    have hsfx : sfxToks sfx = ts := by
      rcases hs with ⟨h1, h2⟩ | ⟨h1, h2⟩ | ⟨h1, h2⟩ <;> subst h1 <;> subst h2 <;> rfl
    have hfr : fRule ('F' :: (ds ++ sfx)) = some (.rate ('1' :: '.' :: ds) :: ts) := by
      simp [fRule, hcap, hsfx]
    simp [procCmd, isTNumFull_cons 'F' _ (by decide) (by decide) (by decide),
      arrowTarget_cons 'F' _ (by decide),
      combCapture_cons_none 'F' _ (by decide) (by decide) (by decide), hfr]

/-- Witness for C5: the `R` part applied at `R4M` and the `F` part at
`F2`, through the universal statements. -/
theorem c5_rate_shorthand_witness :
    procCmd [] false ⟨none, []⟩ ('R' :: (['4'] ++ ['M'])) =
      .ok (⟨none, [] ++ (.rate ['4'] :: [.mute])⟩, []) ∧
    procCmd [] false ⟨none, []⟩ ('F' :: (['2'] ++ [])) =
      .ok (⟨none, [] ++ (.rate ['1', '.', '2'] :: [])⟩, []) :=
  ⟨c5_rate_shorthand.1 [] false ⟨none, []⟩ ['4'] ['M'] [.mute]
     (Or.inl ⟨by decide, by decide⟩) (Or.inr (Or.inl ⟨rfl, rfl⟩)),
   c5_rate_shorthand.2.1 [] false ⟨none, []⟩ ['2'] [] []
     (by decide) (by decide) (Or.inl ⟨rfl, rfl⟩)⟩
